import Mathlib

/-
Verification of `frontend/cleanup.py`, a straight-line Python script that
(1) deletes a hardcoded list of files relative to a fixed directory,
(2) deletes every `test-*.html` file in that directory (glob), and
(3) deletes its own source file.

Shallow embedding choices:
* The filesystem is a `List String` of the relative paths (relative to the
  hardcoded `frontend_dir`, which is also the working directory after
  `os.chdir`) of the files that currently exist.  A path containing `/`
  denotes a file inside a subdirectory (e.g. `public/test-supabase.html`).
  Real filesystems have no duplicate paths, so theorems assume `Nodup`.
* `os.remove` may fail (permissions, races).  Failures are modelled by an
  oracle `raises : String → Bool` saying whether removing that path raises.
  `os.remove` on a missing path always raises (`FileNotFoundError`).
* The printed per-file status lines are modelled by the inductive `Line`;
  the fixed header prints (`Starting cleanup...`, `Cleanup complete!`, ...)
  carry no per-file information and are omitted.
* `glob.glob 'test-*.html'` returns exactly the existing entries of the
  working directory itself (never of subdirectories) whose name matches the
  pattern, i.e. names of the form `test-` ++ anything ++ `.html`.
-/

namespace Cleanup

/-- One status line printed by the script: a successful removal, a skip of a
missing fixed-list file, a caught removal error, or the final self-removal
success/error report. -/
inductive Line where
  | removed (file : String)
  | skipped (file : String)
  | errorRemoving (file : String)
  | selfRemoved
  | selfError
deriving DecidableEq

/-- The hardcoded list `files_to_remove` from cleanup.py (lines 12–46). -/
def files_to_remove : List String :=
  [ "FIX_DATABASE_NOW.sql",
    "FIX_RLS_POLICIES_HIPAA_COMPLIANT.sql",
    "DISCOVER_REAL_SCHEMA.sql",
    "SIMPLE_FIX_JUST_MAKE_IT_WORK.sql",
    "REAL_FIX_BASED_ON_ACTUAL_SCHEMA.sql",
    "fix-rls-policies.sql",
    "update-patient-phones.sql",
    "update-patient-phones.html",
    "waitlist-preview.html",
    "debug-supabase.html",
    "debug-integration-test.js",
    "debug-test.js",
    "debug-supabase-hang.js",
    "run-seed-now.js",
    "execute-rls-fixes.js",
    "update-all-patient-phones.js",
    "SUMMARY_FIXES_COMPLETE.md",
    "SUPABASE_RLS_FIX_INSTRUCTIONS.md",
    "cleanup-temp-files.sh",
    "public/test-supabase.html",
    "perform-cleanup.sh",
    "cleanup.js" ]

/-- Body of the first loop (cleanup.py lines 53–60): `os.path.exists`
pre-check, then `os.remove` inside the per-item `try`.  If the file exists
and removal does not raise, it is erased and a success line is printed; if
removal raises, the exception is caught and an error line is printed; if the
file is absent, a skip line is printed. -/
def removeExisting (raises : String → Bool) (fs : List String) (f : String) :
    List String × Line :=
  if fs.contains f then
    if raises f then (fs, Line.errorRemoving f)
    else (fs.erase f, Line.removed f)
  else (fs, Line.skipped f)

/-- The first loop (cleanup.py lines 51–60): iterate `removeExisting` over a
list of file names, threading the filesystem and collecting output lines. -/
def runFixedList (raises : String → Bool) :
    List String → List String → List String × List Line
  | fs, [] => (fs, [])
  | fs, f :: rest =>
      let s := removeExisting raises fs f
      let r := runFixedList raises s.1 rest
      (r.1, s.2 :: r.2)

/-- Body of the second loop (cleanup.py lines 66–70): `os.remove` with no
existence pre-check.  Removal succeeds iff the file exists and removal does
not raise; otherwise the exception is caught and an error line printed. -/
def removeNoCheck (raises : String → Bool) (fs : List String) (f : String) :
    List String × Line :=
  if fs.contains f && !raises f then (fs.erase f, Line.removed f)
  else (fs, Line.errorRemoving f)

/-- The second loop (cleanup.py lines 65–70) over the snapshot list returned
by `glob.glob`. -/
def runGlobList (raises : String → Bool) :
    List String → List String → List String × List Line
  | fs, [] => (fs, [])
  | fs, f :: rest =>
      let s := removeNoCheck raises fs f
      let r := runGlobList raises s.1 rest
      (r.1, s.2 :: r.2)

/-- Whether a relative path is returned by `glob.glob 'test-*.html')`:
it must be an entry of the working directory itself (no `/`), and its name
must match the pattern, i.e. be `test-` ++ anything ++ `.html`.  The length
bound makes the two affix conditions non-overlapping (it is implied by them,
but recorded explicitly to mirror fnmatch semantics). -/
def isGlobMatch (name : String) : Bool :=
  !name.toList.contains '/' &&
    "test-".toList.isPrefixOf name.toList &&
    ".html".toList.isSuffixOf name.toList &&
    decide (10 ≤ name.toList.length)

/-- The self-removal step (cleanup.py lines 76–80): `os.remove(__file__)`
inside a `try`, printing a success or error line. -/
def removeSelf (raises : String → Bool) (fs : List String) (selfPath : String) :
    List String × Line :=
  if fs.contains selfPath && !raises selfPath then
    (fs.erase selfPath, Line.selfRemoved)
  else (fs, Line.selfError)

/-- Final filesystem and printed status lines of one run. -/
structure RunResult where
  fs : List String
  out : List Line
deriving DecidableEq

/-- The fixed-list loop of cleanup.py (lines 51–60), started on the initial
filesystem: final filesystem and printed lines. -/
def fixedPhase (raises : String → Bool) (fs0 : List String) :
    List String × List Line :=
  runFixedList raises fs0 files_to_remove

/-- The snapshot `test_files = glob.glob('test-*.html')` of cleanup.py line
64, taken on the filesystem left by the fixed-list loop. -/
def test_files (raises : String → Bool) (fs0 : List String) : List String :=
  (fixedPhase raises fs0).1.filter isGlobMatch

/-- The glob loop of cleanup.py (lines 65–70), run on the filesystem left by
the fixed-list loop over the `test_files` snapshot. -/
def globPhase (raises : String → Bool) (fs0 : List String) :
    List String × List Line :=
  runGlobList raises (fixedPhase raises fs0).1 (test_files raises fs0)

/-- The self-removal step of cleanup.py (lines 76–80), run last. -/
def selfPhase (raises : String → Bool) (selfPath : String)
    (fs0 : List String) : List String × Line :=
  removeSelf raises (globPhase raises fs0).1 selfPath

/-- The whole body of cleanup.py after the `os.chdir` succeeded: the
fixed-list loop, then the glob snapshot and its loop, then self-removal.
`selfPath` is the relative path of `__file__` (`cleanup.py` when the script
is invoked from the frontend directory). -/
def runCleanup (raises : String → Bool) (selfPath : String)
    (fs0 : List String) : RunResult :=
  ⟨(selfPhase raises selfPath fs0).1,
    (fixedPhase raises fs0).2 ++ (globPhase raises fs0).2 ++
      [(selfPhase raises selfPath fs0).2]⟩

/-- Outcome of the whole process, including the uncaught `os.chdir` call
(cleanup.py line 9): `exitedNormally` is false exactly when an exception
escaped every per-item `try` block. -/
structure ScriptResult where
  fs : List String
  out : List Line
  exitedNormally : Bool
deriving DecidableEq

/-- The whole script: `os.chdir(frontend_dir)` raises iff the hardcoded
directory is absent (`dirExists = false`); that exception is not caught, so
the process terminates abnormally before any deletion.  Otherwise the body
runs to completion (every later raising point sits inside a `try`). -/
def runScript (dirExists : Bool) (raises : String → Bool) (selfPath : String)
    (fs0 : List String) : ScriptResult :=
  if dirExists then
    let r := runCleanup raises selfPath fs0
    ⟨r.fs, r.out, true⟩
  else
    ⟨fs0, [], false⟩

/-! ### Basic facts about the step functions -/

theorem removeExisting_subset (raises : String → Bool) (fs : List String)
    (f : String) : (removeExisting raises fs f).1 ⊆ fs := by
  unfold removeExisting
  split
  · split
    · exact fun x hx => hx
    · exact List.erase_subset f fs
  · exact fun x hx => hx

theorem removeExisting_mem_iff (raises : String → Bool) (fs : List String)
    (f x : String) (hx : x ≠ f) :
    x ∈ (removeExisting raises fs f).1 ↔ x ∈ fs := by
  unfold removeExisting
  split
  · split
    · exact Iff.rfl
    · exact List.mem_erase_of_ne hx
  · exact Iff.rfl

theorem removeExisting_nodup (raises : String → Bool) (fs : List String)
    (f : String) (h : fs.Nodup) : (removeExisting raises fs f).1.Nodup := by
  unfold removeExisting
  split
  · split
    · exact h
    · exact h.erase f
  · exact h

theorem removeNoCheck_subset (raises : String → Bool) (fs : List String)
    (f : String) : (removeNoCheck raises fs f).1 ⊆ fs := by
  unfold removeNoCheck
  split
  · exact List.erase_subset f fs
  · exact fun x hx => hx

theorem removeNoCheck_mem_iff (raises : String → Bool) (fs : List String)
    (f x : String) (hx : x ≠ f) :
    x ∈ (removeNoCheck raises fs f).1 ↔ x ∈ fs := by
  unfold removeNoCheck
  split
  · exact List.mem_erase_of_ne hx
  · exact Iff.rfl

theorem removeNoCheck_nodup (raises : String → Bool) (fs : List String)
    (f : String) (h : fs.Nodup) : (removeNoCheck raises fs f).1.Nodup := by
  unfold removeNoCheck
  split
  · exact h.erase f
  · exact h

theorem removeSelf_subset (raises : String → Bool) (fs : List String)
    (selfPath : String) : (removeSelf raises fs selfPath).1 ⊆ fs := by
  unfold removeSelf
  split
  · exact List.erase_subset selfPath fs
  · exact fun x hx => hx

theorem removeSelf_mem_iff (raises : String → Bool) (fs : List String)
    (selfPath x : String) (hx : x ≠ selfPath) :
    x ∈ (removeSelf raises fs selfPath).1 ↔ x ∈ fs := by
  unfold removeSelf
  split
  · exact List.mem_erase_of_ne hx
  · exact Iff.rfl

theorem removeSelf_not_mem (raises : String → Bool) (fs : List String)
    (selfPath : String) (h0 : fs.Nodup) (hr : raises selfPath = false) :
    selfPath ∉ (removeSelf raises fs selfPath).1 := by
  unfold removeSelf
  split
  · intro hmem
    exact ((h0.mem_erase_iff.mp hmem).1 rfl).elim
  · rename_i hcond
    rw [hr] at hcond
    simp only [Bool.not_false, Bool.and_true] at hcond
    intro hmem
    exact hcond (List.elem_iff.mpr hmem)

theorem removeSelf_mem_of_raises (raises : String → Bool) (fs : List String)
    (selfPath x : String) (hr : raises x = true) (hx : x ∈ fs) :
    x ∈ (removeSelf raises fs selfPath).1 := by
  by_cases hxs : x = selfPath
  · subst hxs
    unfold removeSelf
    rw [hr]
    simp only [Bool.not_true, Bool.and_false]
    exact hx
  · exact (removeSelf_mem_iff raises fs selfPath x hxs).mpr hx

/-! ### Facts about the fixed-list loop -/

theorem runFixedList_subset (raises : String → Bool) :
    ∀ (fl fs : List String), (runFixedList raises fs fl).1 ⊆ fs := by
  intro fl
  induction fl with
  | nil => intro fs; simp [runFixedList]
  | cons f rest ih =>
      intro fs
      simp only [runFixedList]
      exact fun x hx => removeExisting_subset raises fs f (ih _ hx)

theorem runFixedList_mem_iff (raises : String → Bool) :
    ∀ (fl fs : List String) (x : String), x ∉ fl →
      (x ∈ (runFixedList raises fs fl).1 ↔ x ∈ fs) := by
  intro fl
  induction fl with
  | nil => intro fs x _; simp [runFixedList]
  | cons f rest ih =>
      intro fs x hx
      simp only [runFixedList]
      rw [ih _ x (fun h => hx (List.mem_cons_of_mem f h))]
      exact removeExisting_mem_iff raises fs f x
        (fun h => hx (h ▸ List.mem_cons_self f rest))

theorem runFixedList_nodup (raises : String → Bool) :
    ∀ (fl fs : List String), fs.Nodup → (runFixedList raises fs fl).1.Nodup := by
  intro fl
  induction fl with
  | nil => intro fs h; simpa [runFixedList] using h
  | cons f rest ih =>
      intro fs h
      simp only [runFixedList]
      exact ih _ (removeExisting_nodup raises fs f h)

theorem runFixedList_not_mem (raises : String → Bool) :
    ∀ (fl fs : List String) (f : String), fs.Nodup → f ∈ fl →
      raises f = false → f ∉ (runFixedList raises fs fl).1 := by
  intro fl
  induction fl with
  | nil => intro fs f _ hf; exact (List.not_mem_nil f hf).elim
  | cons g rest ih =>
      intro fs f h0 hf hr
      simp only [runFixedList]
      rcases List.mem_cons.mp hf with hfg | hfr
      · subst hfg
        by_cases hmem : f ∈ rest
        · exact ih _ f (removeExisting_nodup raises fs f h0) hmem hr
        · rw [runFixedList_mem_iff raises rest _ f hmem]
          unfold removeExisting
          split
          · rw [hr]
            simp only [Bool.false_eq_true, if_false]
            intro hcontra
            exact (h0.mem_erase_iff.mp hcontra).1 rfl
          · rename_i hcond
            intro hcontra
            exact hcond (List.elem_iff.mpr hcontra)
      · exact ih _ f (removeExisting_nodup raises fs g h0) hfr hr

theorem runFixedList_mem_of_raises (raises : String → Bool) :
    ∀ (fl fs : List String) (f : String), raises f = true → f ∈ fs →
      f ∈ (runFixedList raises fs fl).1 := by
  intro fl
  induction fl with
  | nil => intro fs f _ hf; simpa [runFixedList] using hf
  | cons g rest ih =>
      intro fs f hr hf
      simp only [runFixedList]
      refine ih _ f hr ?_
      by_cases hfg : f = g
      · subst hfg
        unfold removeExisting
        by_cases hc : fs.contains f = true
        · rw [if_pos hc, hr, if_pos rfl]
          exact hf
        · rw [if_neg hc]
          exact hf
      · exact (removeExisting_mem_iff raises fs g f hfg).mpr hf

theorem runFixedList_skipped_line (raises : String → Bool) :
    ∀ (fl fs : List String) (f : String), f ∈ fl → f ∉ fs →
      Line.skipped f ∈ (runFixedList raises fs fl).2 := by
  intro fl
  induction fl with
  | nil => intro fs f hf; exact (List.not_mem_nil f hf).elim
  | cons g rest ih =>
      intro fs f hf hfs
      simp only [runFixedList, List.mem_cons]
      rcases List.mem_cons.mp hf with hfg | hfr
      · subst hfg
        left
        unfold removeExisting
        rw [if_neg (fun hc => hfs (List.elem_iff.mp hc))]
      · right
        refine ih _ f hfr ?_
        intro hcontra
        exact hfs (removeExisting_subset raises fs g hcontra)

theorem runFixedList_removed_line (raises : String → Bool) :
    ∀ (fl fs : List String) (f : String), f ∈ fl → f ∈ fs →
      raises f = false → Line.removed f ∈ (runFixedList raises fs fl).2 := by
  intro fl
  induction fl with
  | nil => intro fs f hf; exact (List.not_mem_nil f hf).elim
  | cons g rest ih =>
      intro fs f hf hfs hr
      simp only [runFixedList, List.mem_cons]
      by_cases hfg : f = g
      · subst hfg
        left
        unfold removeExisting
        rw [if_pos (List.elem_iff.mpr hfs), hr]
        simp
      · rcases List.mem_cons.mp hf with hfg' | hfr
        · exact (hfg hfg').elim
        · right
          exact ih _ f hfr ((removeExisting_mem_iff raises fs g f hfg).mpr hfs) hr

theorem runFixedList_error_line (raises : String → Bool) :
    ∀ (fl fs : List String) (f : String), f ∈ fl → f ∈ fs →
      raises f = true → Line.errorRemoving f ∈ (runFixedList raises fs fl).2 := by
  intro fl
  induction fl with
  | nil => intro fs f hf; exact (List.not_mem_nil f hf).elim
  | cons g rest ih =>
      intro fs f hf hfs hr
      simp only [runFixedList, List.mem_cons]
      by_cases hfg : f = g
      · subst hfg
        left
        unfold removeExisting
        rw [if_pos (List.elem_iff.mpr hfs), hr]
        simp
      · rcases List.mem_cons.mp hf with hfg' | hfr
        · exact (hfg hfg').elim
        · right
          exact ih _ f hfr ((removeExisting_mem_iff raises fs g f hfg).mpr hfs) hr

theorem runFixedList_length (raises : String → Bool) :
    ∀ (fl fs : List String), (runFixedList raises fs fl).2.length = fl.length := by
  intro fl
  induction fl with
  | nil => intro fs; simp [runFixedList]
  | cons f rest ih =>
      intro fs
      simp only [runFixedList, List.length_cons]
      rw [ih]

theorem runFixedList_all_skipped (raises : String → Bool) :
    ∀ (fl fs : List String), (∀ f ∈ fl, f ∉ fs) →
      runFixedList raises fs fl = (fs, fl.map Line.skipped) := by
  intro fl
  induction fl with
  | nil => intro fs _; simp [runFixedList]
  | cons f rest ih =>
      intro fs h
      have hf : f ∉ fs := h f (List.mem_cons_self f rest)
      have hstep : removeExisting raises fs f = (fs, Line.skipped f) := by
        unfold removeExisting
        rw [if_neg (fun hc => hf (List.elem_iff.mp hc))]
      simp only [runFixedList, hstep, List.map_cons]
      rw [ih fs (fun g hg => h g (List.mem_cons_of_mem f hg))]

theorem runFixedList_line_shape (raises : String → Bool) :
    ∀ (fl fs : List String) (l : Line), l ∈ (runFixedList raises fs fl).2 →
      ∃ f, l = Line.removed f ∨ l = Line.skipped f ∨ l = Line.errorRemoving f := by
  intro fl
  induction fl with
  | nil => intro fs l hl; simp [runFixedList] at hl
  | cons f rest ih =>
      intro fs l hl
      simp only [runFixedList, List.mem_cons] at hl
      rcases hl with hl | hl
      · subst hl
        unfold removeExisting
        split
        · split
          · exact ⟨f, Or.inr (Or.inr rfl)⟩
          · exact ⟨f, Or.inl rfl⟩
        · exact ⟨f, Or.inr (Or.inl rfl)⟩
      · exact ih _ l hl

/-! ### Facts about the glob loop -/

theorem runGlobList_subset (raises : String → Bool) :
    ∀ (fl fs : List String), (runGlobList raises fs fl).1 ⊆ fs := by
  intro fl
  induction fl with
  | nil => intro fs; simp [runGlobList]
  | cons f rest ih =>
      intro fs
      simp only [runGlobList]
      exact fun x hx => removeNoCheck_subset raises fs f (ih _ hx)

theorem runGlobList_mem_iff (raises : String → Bool) :
    ∀ (fl fs : List String) (x : String), x ∉ fl →
      (x ∈ (runGlobList raises fs fl).1 ↔ x ∈ fs) := by
  intro fl
  induction fl with
  | nil => intro fs x _; simp [runGlobList]
  | cons f rest ih =>
      intro fs x hx
      simp only [runGlobList]
      rw [ih _ x (fun h => hx (List.mem_cons_of_mem f h))]
      exact removeNoCheck_mem_iff raises fs f x
        (fun h => hx (h ▸ List.mem_cons_self f rest))

theorem runGlobList_nodup (raises : String → Bool) :
    ∀ (fl fs : List String), fs.Nodup → (runGlobList raises fs fl).1.Nodup := by
  intro fl
  induction fl with
  | nil => intro fs h; simpa [runGlobList] using h
  | cons f rest ih =>
      intro fs h
      simp only [runGlobList]
      exact ih _ (removeNoCheck_nodup raises fs f h)

theorem runGlobList_not_mem (raises : String → Bool) :
    ∀ (fl fs : List String) (f : String), fs.Nodup → f ∈ fl →
      raises f = false → f ∉ (runGlobList raises fs fl).1 := by
  intro fl
  induction fl with
  | nil => intro fs f _ hf; exact (List.not_mem_nil f hf).elim
  | cons g rest ih =>
      intro fs f h0 hf hr
      simp only [runGlobList]
      rcases List.mem_cons.mp hf with hfg | hfr
      · subst hfg
        by_cases hmem : f ∈ rest
        · exact ih _ f (removeNoCheck_nodup raises fs f h0) hmem hr
        · rw [runGlobList_mem_iff raises rest _ f hmem]
          unfold removeNoCheck
          by_cases hc : fs.contains f = true
          · rw [if_pos (by rw [hc, hr]; rfl)]
            intro hcontra
            exact (h0.mem_erase_iff.mp hcontra).1 rfl
          · have hcond : ¬((fs.contains f && !raises f) = true) := by
              intro hcond
              rw [Bool.and_eq_true] at hcond
              exact hc hcond.1
            rw [if_neg hcond]
            intro hcontra
            exact hc (List.elem_iff.mpr hcontra)
      · exact ih _ f (removeNoCheck_nodup raises fs g h0) hfr hr

theorem runGlobList_mem_of_raises (raises : String → Bool) :
    ∀ (fl fs : List String) (f : String), raises f = true → f ∈ fs →
      f ∈ (runGlobList raises fs fl).1 := by
  intro fl
  induction fl with
  | nil => intro fs f _ hf; simpa [runGlobList] using hf
  | cons g rest ih =>
      intro fs f hr hf
      simp only [runGlobList]
      refine ih _ f hr ?_
      by_cases hfg : f = g
      · subst hfg
        unfold removeNoCheck
        rw [if_neg (by simp [hr])]
        exact hf
      · exact (removeNoCheck_mem_iff raises fs g f hfg).mpr hf

theorem runGlobList_removed_line (raises : String → Bool) :
    ∀ (fl fs : List String) (f : String), f ∈ fl → f ∈ fs →
      raises f = false → Line.removed f ∈ (runGlobList raises fs fl).2 := by
  intro fl
  induction fl with
  | nil => intro fs f hf; exact (List.not_mem_nil f hf).elim
  | cons g rest ih =>
      intro fs f hf hfs hr
      simp only [runGlobList, List.mem_cons]
      by_cases hfg : f = g
      · subst hfg
        left
        unfold removeNoCheck
        have hc : fs.contains f = true := List.elem_iff.mpr hfs
        rw [if_pos (by rw [hc, hr]; rfl)]
      · rcases List.mem_cons.mp hf with hfg' | hfr
        · exact (hfg hfg').elim
        · right
          exact ih _ f hfr ((removeNoCheck_mem_iff raises fs g f hfg).mpr hfs) hr

theorem runGlobList_error_line (raises : String → Bool) :
    ∀ (fl fs : List String) (f : String), f ∈ fl → raises f = true →
      Line.errorRemoving f ∈ (runGlobList raises fs fl).2 := by
  intro fl
  induction fl with
  | nil => intro fs f hf; exact (List.not_mem_nil f hf).elim
  | cons g rest ih =>
      intro fs f hf hr
      simp only [runGlobList, List.mem_cons]
      by_cases hfg : f = g
      · subst hfg
        left
        unfold removeNoCheck
        rw [if_neg (by simp [hr])]
      · rcases List.mem_cons.mp hf with hfg' | hfr
        · exact (hfg hfg').elim
        · right
          exact ih _ f hfr hr

theorem runGlobList_length (raises : String → Bool) :
    ∀ (fl fs : List String), (runGlobList raises fs fl).2.length = fl.length := by
  intro fl
  induction fl with
  | nil => intro fs; simp [runGlobList]
  | cons f rest ih =>
      intro fs
      simp only [runGlobList, List.length_cons]
      rw [ih]

theorem runGlobList_line_shape (raises : String → Bool) :
    ∀ (fl fs : List String) (l : Line), l ∈ (runGlobList raises fs fl).2 →
      ∃ f, l = Line.removed f ∨ l = Line.errorRemoving f := by
  intro fl
  induction fl with
  | nil => intro fs l hl; simp [runGlobList] at hl
  | cons f rest ih =>
      intro fs l hl
      simp only [runGlobList, List.mem_cons] at hl
      rcases hl with hl | hl
      · subst hl
        unfold removeNoCheck
        split
        · exact ⟨f, Or.inl rfl⟩
        · exact ⟨f, Or.inr rfl⟩
      · exact ih _ l hl

/-! ### Erasing a non-match never changes the glob matches -/

theorem filter_erase_of_neg (p : String → Bool) (g : String) (hp : p g = false) :
    ∀ l : List String, (l.erase g).filter p = l.filter p := by
  intro l
  induction l with
  | nil => simp
  | cons a l ih =>
      rw [List.erase_cons]
      by_cases hag : a = g
      · subst hag
        rw [if_pos (by simp)]
        simp [List.filter_cons, hp]
      · rw [if_neg (by simp [hag])]
        simp only [List.filter_cons, ih]

theorem runFixedList_filter (raises : String → Bool) (p : String → Bool) :
    ∀ (fl fs : List String), (∀ f ∈ fl, p f = false) →
      (runFixedList raises fs fl).1.filter p = fs.filter p := by
  intro fl
  induction fl with
  | nil => intro fs _; simp [runFixedList]
  | cons f rest ih =>
      intro fs h
      simp only [runFixedList]
      rw [ih _ (fun g hg => h g (List.mem_cons_of_mem f hg))]
      unfold removeExisting
      by_cases hc : fs.contains f = true
      · rw [if_pos hc]
        by_cases hrf : raises f = true
        · rw [if_pos hrf]
        · rw [if_neg hrf]
          exact filter_erase_of_neg p f (h f (List.mem_cons_self f rest)) fs
      · rw [if_neg hc]

/-! ### Concrete facts about the hardcoded data -/

theorem files_to_remove_nodup : files_to_remove.Nodup := by decide

theorem files_to_remove_no_glob :
    ∀ g ∈ files_to_remove, isGlobMatch g = false := by decide

theorem removeSelf_nodup (raises : String → Bool) (fs : List String)
    (selfPath : String) (h : fs.Nodup) : (removeSelf raises fs selfPath).1.Nodup := by
  unfold removeSelf
  split
  · exact h.erase selfPath
  · exact h

theorem removeSelf_line (raises : String → Bool) (fs : List String)
    (selfPath : String) :
    (removeSelf raises fs selfPath).2 = Line.selfRemoved ∨
    (removeSelf raises fs selfPath).2 = Line.selfError := by
  unfold removeSelf
  split
  · exact Or.inl rfl
  · exact Or.inr rfl

theorem removeSelf_line_of_raises (raises : String → Bool) (fs : List String)
    (selfPath : String) (hr : raises selfPath = true) :
    (removeSelf raises fs selfPath).2 = Line.selfError := by
  unfold removeSelf
  rw [if_neg (by simp [hr])]

/-! ### Projection and unfolding equations

The state that the loops thread through the run is a deeply nested term
once `files_to_remove` is instantiated, so every proof below moves between
`runCleanup` and its phases by rewriting with these syntactic equations,
never by definitional unfolding. -/

theorem RunResult_fs_mk (a : List String) (b : List Line) :
    (RunResult.mk a b).fs = a := rfl

theorem RunResult_out_mk (a : List String) (b : List Line) :
    (RunResult.mk a b).out = b := rfl

theorem fixedPhase_eq (raises : String → Bool) (fs0 : List String) :
    fixedPhase raises fs0 = runFixedList raises fs0 files_to_remove := rfl

theorem test_files_eq (raises : String → Bool) (fs0 : List String) :
    test_files raises fs0 = (fixedPhase raises fs0).1.filter isGlobMatch := rfl

theorem globPhase_eq (raises : String → Bool) (fs0 : List String) :
    globPhase raises fs0 =
      runGlobList raises (fixedPhase raises fs0).1 (test_files raises fs0) := rfl

theorem selfPhase_eq (raises : String → Bool) (selfPath : String)
    (fs0 : List String) :
    selfPhase raises selfPath fs0 =
      removeSelf raises (globPhase raises fs0).1 selfPath := rfl

theorem runCleanup_fs (raises : String → Bool) (selfPath : String)
    (fs0 : List String) :
    (runCleanup raises selfPath fs0).fs = (selfPhase raises selfPath fs0).1 := by
  unfold runCleanup
  exact RunResult_fs_mk _ _

theorem runCleanup_out (raises : String → Bool) (selfPath : String)
    (fs0 : List String) :
    (runCleanup raises selfPath fs0).out =
      (fixedPhase raises fs0).2 ++ (globPhase raises fs0).2 ++
        [(selfPhase raises selfPath fs0).2] := by
  unfold runCleanup
  exact RunResult_out_mk _ _

/-! ### Phase-level facts -/

theorem fixedPhase_subset (raises : String → Bool) (fs0 : List String) :
    (fixedPhase raises fs0).1 ⊆ fs0 := by
  rw [fixedPhase_eq]
  exact runFixedList_subset raises files_to_remove fs0

theorem fixedPhase_nodup (raises : String → Bool) (fs0 : List String)
    (h0 : fs0.Nodup) : (fixedPhase raises fs0).1.Nodup := by
  rw [fixedPhase_eq]
  exact runFixedList_nodup raises files_to_remove fs0 h0

theorem globPhase_subset (raises : String → Bool) (fs0 : List String) :
    (globPhase raises fs0).1 ⊆ (fixedPhase raises fs0).1 := by
  rw [globPhase_eq]
  exact runGlobList_subset raises (test_files raises fs0) (fixedPhase raises fs0).1

theorem globPhase_nodup (raises : String → Bool) (fs0 : List String)
    (h0 : fs0.Nodup) : (globPhase raises fs0).1.Nodup := by
  rw [globPhase_eq]
  exact runGlobList_nodup raises (test_files raises fs0) (fixedPhase raises fs0).1
    (fixedPhase_nodup raises fs0 h0)

theorem selfPhase_subset (raises : String → Bool) (selfPath : String)
    (fs0 : List String) :
    (selfPhase raises selfPath fs0).1 ⊆ (globPhase raises fs0).1 := by
  rw [selfPhase_eq]
  exact removeSelf_subset raises (globPhase raises fs0).1 selfPath

theorem selfPhase_line (raises : String → Bool) (selfPath : String)
    (fs0 : List String) :
    (selfPhase raises selfPath fs0).2 = Line.selfRemoved ∨
    (selfPhase raises selfPath fs0).2 = Line.selfError := by
  rw [selfPhase_eq]
  exact removeSelf_line raises (globPhase raises fs0).1 selfPath

theorem selfPhase_line_of_raises (raises : String → Bool) (selfPath : String)
    (fs0 : List String) (hr : raises selfPath = true) :
    (selfPhase raises selfPath fs0).2 = Line.selfError := by
  rw [selfPhase_eq]
  exact removeSelf_line_of_raises raises (globPhase raises fs0).1 selfPath hr

/-- The glob snapshot is exactly the glob matches of the initial filesystem:
the fixed-list loop removes only fixed-list entries, and none of them
matches the pattern. -/
theorem test_files_eq_filter (raises : String → Bool) (fs0 : List String) :
    test_files raises fs0 = fs0.filter isGlobMatch := by
  rw [test_files_eq, fixedPhase_eq]
  exact runFixedList_filter raises isGlobMatch files_to_remove fs0
    files_to_remove_no_glob

/-! ### Run-level facts -/

theorem runCleanup_fs_subset (raises : String → Bool) (selfPath : String)
    (fs0 : List String) : (runCleanup raises selfPath fs0).fs ⊆ fs0 := by
  rw [runCleanup_fs]
  intro x hx
  exact fixedPhase_subset raises fs0 (globPhase_subset raises fs0
    (selfPhase_subset raises selfPath fs0 hx))

theorem runCleanup_not_mem_fixed (raises : String → Bool) (selfPath : String)
    (fs0 : List String) (h0 : fs0.Nodup) (f : String)
    (hf : f ∈ files_to_remove) (hr : raises f = false) :
    f ∉ (runCleanup raises selfPath fs0).fs := by
  rw [runCleanup_fs]
  intro hx
  have h1 : f ∈ (fixedPhase raises fs0).1 :=
    globPhase_subset raises fs0 (selfPhase_subset raises selfPath fs0 hx)
  rw [fixedPhase_eq] at h1
  exact runFixedList_not_mem raises files_to_remove fs0 f h0 hf hr h1

theorem runCleanup_not_mem_glob (raises : String → Bool) (selfPath : String)
    (fs0 : List String) (h0 : fs0.Nodup) (f : String) (hf : f ∈ fs0)
    (hm : isGlobMatch f = true) (hr : raises f = false) :
    f ∉ (runCleanup raises selfPath fs0).fs := by
  have hnf : f ∉ files_to_remove := by
    intro h
    rw [files_to_remove_no_glob f h] at hm
    exact Bool.noConfusion hm
  have h1 : f ∈ (fixedPhase raises fs0).1 := by
    rw [fixedPhase_eq]
    exact (runFixedList_mem_iff raises files_to_remove fs0 f hnf).mpr hf
  have htfs : f ∈ test_files raises fs0 := by
    rw [test_files_eq]
    exact List.mem_filter.mpr ⟨h1, hm⟩
  have h2 : f ∉ (globPhase raises fs0).1 := by
    rw [globPhase_eq]
    exact runGlobList_not_mem raises (test_files raises fs0)
      (fixedPhase raises fs0).1 f (fixedPhase_nodup raises fs0 h0) htfs hr
  rw [runCleanup_fs]
  intro hx
  exact h2 (selfPhase_subset raises selfPath fs0 hx)

theorem runCleanup_mem_frame (raises : String → Bool) (selfPath : String)
    (fs0 : List String) (f : String) (hf : f ∈ fs0)
    (h1 : f ∉ files_to_remove) (h2 : isGlobMatch f = false)
    (h3 : f ≠ selfPath) : f ∈ (runCleanup raises selfPath fs0).fs := by
  have hA : f ∈ (fixedPhase raises fs0).1 := by
    rw [fixedPhase_eq]
    exact (runFixedList_mem_iff raises files_to_remove fs0 f h1).mpr hf
  have hnt : f ∉ test_files raises fs0 := by
    rw [test_files_eq]
    intro h
    rw [(List.mem_filter.mp h).2] at h2
    exact Bool.noConfusion h2
  have hB : f ∈ (globPhase raises fs0).1 := by
    rw [globPhase_eq]
    exact (runGlobList_mem_iff raises (test_files raises fs0)
      (fixedPhase raises fs0).1 f hnt).mpr hA
  rw [runCleanup_fs, selfPhase_eq]
  exact (removeSelf_mem_iff raises (globPhase raises fs0).1 selfPath f h3).mpr hB

theorem runCleanup_mem_of_raises (raises : String → Bool) (selfPath : String)
    (fs0 : List String) (f : String) (hr : raises f = true) (hf : f ∈ fs0) :
    f ∈ (runCleanup raises selfPath fs0).fs := by
  rw [runCleanup_fs, selfPhase_eq]
  refine removeSelf_mem_of_raises raises (globPhase raises fs0).1 selfPath f hr ?_
  rw [globPhase_eq]
  refine runGlobList_mem_of_raises raises (test_files raises fs0)
    (fixedPhase raises fs0).1 f hr ?_
  rw [fixedPhase_eq]
  exact runFixedList_mem_of_raises raises files_to_remove fs0 f hr hf

theorem runCleanup_not_mem_self (raises : String → Bool) (selfPath : String)
    (fs0 : List String) (h0 : fs0.Nodup) (hr : raises selfPath = false) :
    selfPath ∉ (runCleanup raises selfPath fs0).fs := by
  rw [runCleanup_fs, selfPhase_eq]
  exact removeSelf_not_mem raises (globPhase raises fs0).1 selfPath
    (globPhase_nodup raises fs0 h0) hr

theorem runCleanup_out_mem_fixed (raises : String → Bool) (selfPath : String)
    (fs0 : List String) (l : Line) (hl : l ∈ (fixedPhase raises fs0).2) :
    l ∈ (runCleanup raises selfPath fs0).out := by
  rw [runCleanup_out]
  exact List.mem_append.mpr (Or.inl (List.mem_append.mpr (Or.inl hl)))

theorem runCleanup_out_mem_glob (raises : String → Bool) (selfPath : String)
    (fs0 : List String) (l : Line) (hl : l ∈ (globPhase raises fs0).2) :
    l ∈ (runCleanup raises selfPath fs0).out := by
  rw [runCleanup_out]
  exact List.mem_append.mpr (Or.inl (List.mem_append.mpr (Or.inr hl)))

theorem runCleanup_out_getLast (raises : String → Bool) (selfPath : String)
    (fs0 : List String) :
    (runCleanup raises selfPath fs0).out.getLast? =
      some (selfPhase raises selfPath fs0).2 := by
  rw [runCleanup_out]
  exact List.getLast?_concat _

theorem runCleanup_out_length (raises : String → Bool) (selfPath : String)
    (fs0 : List String) :
    (runCleanup raises selfPath fs0).out.length
      = files_to_remove.length + (fs0.filter isGlobMatch).length + 1 := by
  rw [runCleanup_out, List.length_append, List.length_append]
  have h1 : (fixedPhase raises fs0).2.length = files_to_remove.length := by
    rw [fixedPhase_eq]
    exact runFixedList_length raises files_to_remove fs0
  have h2 : (globPhase raises fs0).2.length = (fs0.filter isGlobMatch).length := by
    rw [globPhase_eq,
      runGlobList_length raises (test_files raises fs0) (fixedPhase raises fs0).1,
      test_files_eq_filter]
  rw [h1, h2]
  rfl

/-! ### Facts about the whole script including `os.chdir` -/

theorem ScriptResult_fs_mk (a : List String) (b : List Line) (c : Bool) :
    (ScriptResult.mk a b c).fs = a := rfl

theorem ScriptResult_out_mk (a : List String) (b : List Line) (c : Bool) :
    (ScriptResult.mk a b c).out = b := rfl

theorem ScriptResult_exit_mk (a : List String) (b : List Line) (c : Bool) :
    (ScriptResult.mk a b c).exitedNormally = c := rfl

theorem runScript_true_eq (raises : String → Bool) (selfPath : String)
    (fs0 : List String) :
    runScript true raises selfPath fs0 =
      ⟨(runCleanup raises selfPath fs0).fs,
        (runCleanup raises selfPath fs0).out, true⟩ := rfl

theorem runScript_false_eq (raises : String → Bool) (selfPath : String)
    (fs0 : List String) :
    runScript false raises selfPath fs0 = ⟨fs0, [], false⟩ := rfl

/-! ### The claims -/

/-- C1: for every path in the fixed list `files_to_remove`, the run prints a
skip line and leaves nothing behind when the file is absent; deletes the file
and prints a success line when it exists and deletion does not raise; and
when deletion raises, catches the exception, prints an error line and leaves
the file in place while the rest of the run continues.  Consequently, after
the run, every fixed-list file that existed (and whose deletion did not
raise) no longer exists, and every absent one had a skip message printed. -/
theorem C1_fixed_list_contract (raises : String → Bool) (selfPath : String)
    (fs0 : List String) (h0 : fs0.Nodup) (f : String)
    (hf : f ∈ files_to_remove) :
    (f ∉ fs0 → Line.skipped f ∈ (runCleanup raises selfPath fs0).out ∧
      f ∉ (runCleanup raises selfPath fs0).fs) ∧
    (f ∈ fs0 → raises f = false →
      f ∉ (runCleanup raises selfPath fs0).fs ∧
      Line.removed f ∈ (runCleanup raises selfPath fs0).out) ∧
    (f ∈ fs0 → raises f = true →
      Line.errorRemoving f ∈ (runCleanup raises selfPath fs0).out ∧
      f ∈ (runCleanup raises selfPath fs0).fs) := by
  refine ⟨fun hnf => ⟨?_, ?_⟩, fun hx hr => ⟨?_, ?_⟩, fun hx hr => ⟨?_, ?_⟩⟩
  · refine runCleanup_out_mem_fixed raises selfPath fs0 (Line.skipped f) ?_
    rw [fixedPhase_eq]
    exact runFixedList_skipped_line raises files_to_remove fs0 f hf hnf
  · intro hx
    exact hnf (runCleanup_fs_subset raises selfPath fs0 hx)
  · exact runCleanup_not_mem_fixed raises selfPath fs0 h0 f hf hr
  · refine runCleanup_out_mem_fixed raises selfPath fs0 (Line.removed f) ?_
    rw [fixedPhase_eq]
    exact runFixedList_removed_line raises files_to_remove fs0 f hf hx hr
  · refine runCleanup_out_mem_fixed raises selfPath fs0 (Line.errorRemoving f) ?_
    rw [fixedPhase_eq]
    exact runFixedList_error_line raises files_to_remove fs0 f hf hx hr
  · exact runCleanup_mem_of_raises raises selfPath fs0 f hr hx

/-- Witness for C1: on a filesystem holding exactly `FIX_DATABASE_NOW.sql`,
a failure-free run deletes it and prints its success line. -/
theorem C1_fixed_list_contract_witness :
    "FIX_DATABASE_NOW.sql" ∉ (runCleanup (fun _ => false) "cleanup.py"
      ["FIX_DATABASE_NOW.sql"]).fs ∧
    Line.removed "FIX_DATABASE_NOW.sql" ∈ (runCleanup (fun _ => false)
      "cleanup.py" ["FIX_DATABASE_NOW.sql"]).out :=
  (C1_fixed_list_contract (fun _ => false) "cleanup.py" ["FIX_DATABASE_NOW.sql"]
    (by decide) "FIX_DATABASE_NOW.sql" (by decide)).2.1 (by decide) rfl

/-- C2: every file of the working directory that matches `test-*.html` is
attempted (with no existence pre-check needed, since the glob snapshot only
returns existing matches): if its deletion does not raise it is gone after
the whole run and a success line is printed; if its deletion raises an error
line is printed. -/
theorem C2_glob_removal (raises : String → Bool) (selfPath : String)
    (fs0 : List String) (h0 : fs0.Nodup) (f : String) (hf : f ∈ fs0)
    (hm : isGlobMatch f = true) :
    (raises f = false → f ∉ (runCleanup raises selfPath fs0).fs ∧
      Line.removed f ∈ (runCleanup raises selfPath fs0).out) ∧
    (raises f = true →
      Line.errorRemoving f ∈ (runCleanup raises selfPath fs0).out) := by
  have hnf : f ∉ files_to_remove := by
    intro h
    rw [files_to_remove_no_glob f h] at hm
    exact Bool.noConfusion hm
  have h1 : f ∈ (fixedPhase raises fs0).1 := by
    rw [fixedPhase_eq]
    exact (runFixedList_mem_iff raises files_to_remove fs0 f hnf).mpr hf
  have htfs : f ∈ test_files raises fs0 := by
    rw [test_files_eq]
    exact List.mem_filter.mpr ⟨h1, hm⟩
  constructor
  · intro hr
    refine ⟨runCleanup_not_mem_glob raises selfPath fs0 h0 f hf hm hr, ?_⟩
    refine runCleanup_out_mem_glob raises selfPath fs0 (Line.removed f) ?_
    rw [globPhase_eq]
    exact runGlobList_removed_line raises (test_files raises fs0)
      (fixedPhase raises fs0).1 f htfs h1 hr
  · intro hr
    refine runCleanup_out_mem_glob raises selfPath fs0 (Line.errorRemoving f) ?_
    rw [globPhase_eq]
    exact runGlobList_error_line raises (test_files raises fs0)
      (fixedPhase raises fs0).1 f htfs hr

/-- Witness for C2: a failure-free run on a filesystem holding exactly
`test-x.html` deletes it and prints its success line. -/
theorem C2_glob_removal_witness :
    "test-x.html" ∉ (runCleanup (fun _ => false) "cleanup.py"
      ["test-x.html"]).fs ∧
    Line.removed "test-x.html" ∈ (runCleanup (fun _ => false) "cleanup.py"
      ["test-x.html"]).out :=
  (C2_glob_removal (fun _ => false) "cleanup.py" ["test-x.html"] (by decide)
    "test-x.html" (by decide) (by decide)).1 rfl

/-- C3 (frame condition): every existing file that is not in the fixed list,
does not match the glob pattern, and is not the script itself, still exists
after the run — the script deletes nothing else. -/
theorem C3_frame_condition (raises : String → Bool) (selfPath : String)
    (fs0 : List String) (f : String) (hf : f ∈ fs0)
    (h1 : f ∉ files_to_remove) (h2 : isGlobMatch f = false)
    (h3 : f ≠ selfPath) : f ∈ (runCleanup raises selfPath fs0).fs :=
  runCleanup_mem_frame raises selfPath fs0 f hf h1 h2 h3

/-- Witness for C3: an unrelated file `keep.txt` survives the run. -/
theorem C3_frame_condition_witness :
    "keep.txt" ∈ (runCleanup (fun _ => false) "cleanup.py" ["keep.txt"]).fs :=
  C3_frame_condition (fun _ => false) "cleanup.py" ["keep.txt"] "keep.txt"
    (by decide) (by decide) (by decide) (by decide)

/-- C4: the self-removal report (success or error) is the very last status
line, after every fixed-list line and every glob line (no earlier line is a
self-removal report), and when self-removal does not raise the script file no
longer exists after execution. -/
theorem C4_self_removal_postcondition (raises : String → Bool)
    (selfPath : String) (fs0 : List String) (h0 : fs0.Nodup) :
    (raises selfPath = false →
      selfPath ∉ (runCleanup raises selfPath fs0).fs) ∧
    ∃ rest lastLine,
      (runCleanup raises selfPath fs0).out = rest ++ [lastLine] ∧
      (lastLine = Line.selfRemoved ∨ lastLine = Line.selfError) ∧
      ∀ l ∈ rest, l ≠ Line.selfRemoved ∧ l ≠ Line.selfError := by
  refine ⟨fun hr => runCleanup_not_mem_self raises selfPath fs0 h0 hr,
    (fixedPhase raises fs0).2 ++ (globPhase raises fs0).2,
    (selfPhase raises selfPath fs0).2, ?_,
    selfPhase_line raises selfPath fs0, ?_⟩
  · rw [runCleanup_out]
  · intro l hl
    rcases List.mem_append.mp hl with hl | hl
    · rw [fixedPhase_eq] at hl
      rcases runFixedList_line_shape raises files_to_remove fs0 l hl with
        ⟨f, hf | hf | hf⟩ <;>
        (subst hf
         exact ⟨fun h => Line.noConfusion h, fun h => Line.noConfusion h⟩)
    · rw [globPhase_eq] at hl
      rcases runGlobList_line_shape raises (test_files raises fs0)
        (fixedPhase raises fs0).1 l hl with ⟨f, hf | hf⟩ <;>
        (subst hf
         exact ⟨fun h => Line.noConfusion h, fun h => Line.noConfusion h⟩)

/-- Witness for C4: after a failure-free run on a filesystem holding only the
script, the script file is gone. -/
theorem C4_self_removal_postcondition_witness :
    "cleanup.py" ∉ (runCleanup (fun _ => false) "cleanup.py"
      ["cleanup.py"]).fs :=
  (C4_self_removal_postcondition (fun _ => false) "cleanup.py" ["cleanup.py"]
    (by decide)).1 rfl

/-- C5: running the deletion logic a second time on the filesystem left by a
failure-free first run produces only skip lines for the fixed list (and
changes nothing), finds no `test-*.html` glob matches, and indeed the script
file itself no longer exists (which is what makes an actual second run
impossible). -/
theorem C5_second_run_skips (selfPath : String) (raises2 : String → Bool)
    (fs0 : List String) (h0 : fs0.Nodup) :
    fixedPhase raises2 (runCleanup (fun _ => false) selfPath fs0).fs
      = ((runCleanup (fun _ => false) selfPath fs0).fs,
          files_to_remove.map Line.skipped) ∧
    test_files raises2 (runCleanup (fun _ => false) selfPath fs0).fs = [] ∧
    selfPath ∉ (runCleanup (fun _ => false) selfPath fs0).fs := by
  have hgone : ∀ f ∈ files_to_remove,
      f ∉ (runCleanup (fun _ => false) selfPath fs0).fs := fun f hf =>
    runCleanup_not_mem_fixed (fun _ => false) selfPath fs0 h0 f hf rfl
  have hnoglob : ∀ f ∈ (runCleanup (fun _ => false) selfPath fs0).fs,
      ¬ isGlobMatch f = true := by
    intro f hf hm
    exact runCleanup_not_mem_glob (fun _ => false) selfPath fs0 h0 f
      (runCleanup_fs_subset (fun _ => false) selfPath fs0 hf) hm rfl hf
  refine ⟨?_, ?_, runCleanup_not_mem_self (fun _ => false) selfPath fs0 h0 rfl⟩
  · rw [fixedPhase_eq]
    exact runFixedList_all_skipped raises2 files_to_remove _ hgone
  · rw [test_files_eq_filter]
    exact List.filter_eq_nil_iff.mpr hnoglob

/-- Witness for C5: after a first run on a filesystem holding a fixed-list
file and a glob match, the second run's glob snapshot is empty. -/
theorem C5_second_run_skips_witness :
    test_files (fun _ => false) (runCleanup (fun _ => false) "cleanup.py"
      ["FIX_DATABASE_NOW.sql", "test-a.html"]).fs = [] :=
  (C5_second_run_skips "cleanup.py" (fun _ => false)
    ["FIX_DATABASE_NOW.sql", "test-a.html"] (by decide)).2.1

/-- C6 (error isolation): whatever the failure oracle does, the run that
passed `os.chdir` performs one isolated deletion attempt per fixed-list path
and per glob match plus the final self-removal — each producing exactly one
status line — and the process still exits normally: no deletion failure is
fatal.  (The glob snapshot itself is unaffected by failures of fixed-list
deletions, since no fixed-list entry matches the pattern.) -/
theorem C6_error_isolation (raises : String → Bool) (selfPath : String)
    (fs0 : List String) :
    (runScript true raises selfPath fs0).out.length
      = files_to_remove.length + (fs0.filter isGlobMatch).length + 1 ∧
    (runScript true raises selfPath fs0).exitedNormally = true := by
  rw [runScript_true_eq, ScriptResult_out_mk, ScriptResult_exit_mk]
  exact ⟨runCleanup_out_length raises selfPath fs0, rfl⟩

/-- C7 counterexample: `a.sql` is NOT in the fixed list `files_to_remove`,
so on a directory containing `a.sql` and `test-x.html` the script leaves
`a.sql` in place and prints no success line for it — contradicting the
claimed scenario, which asserts both files are removed with one success line
each. -/
theorem C7_scenario_counterexample :
    "a.sql" ∉ files_to_remove ∧
    "a.sql" ∈ (runCleanup (fun _ => false) "cleanup.py"
      ["a.sql", "test-x.html", "cleanup.py"]).fs ∧
    Line.removed "a.sql" ∉ (runCleanup (fun _ => false) "cleanup.py"
      ["a.sql", "test-x.html", "cleanup.py"]).out := by decide

/-- C7 amended: for a directory containing a file that actually is in the
fixed list (`FIX_DATABASE_NOW.sql`) together with `test-x.html` and the
script itself, a failure-free run removes both files, prints exactly one
success line for each, and ends with the self-removal success line. -/
theorem C7_scenario_amended :
    "FIX_DATABASE_NOW.sql" ∉ (runCleanup (fun _ => false) "cleanup.py"
      ["FIX_DATABASE_NOW.sql", "test-x.html", "cleanup.py"]).fs ∧
    "test-x.html" ∉ (runCleanup (fun _ => false) "cleanup.py"
      ["FIX_DATABASE_NOW.sql", "test-x.html", "cleanup.py"]).fs ∧
    (runCleanup (fun _ => false) "cleanup.py"
      ["FIX_DATABASE_NOW.sql", "test-x.html", "cleanup.py"]).out.count
        (Line.removed "FIX_DATABASE_NOW.sql") = 1 ∧
    (runCleanup (fun _ => false) "cleanup.py"
      ["FIX_DATABASE_NOW.sql", "test-x.html", "cleanup.py"]).out.count
        (Line.removed "test-x.html") = 1 ∧
    (runCleanup (fun _ => false) "cleanup.py"
      ["FIX_DATABASE_NOW.sql", "test-x.html", "cleanup.py"]).out.getLast?
      = some Line.selfRemoved := by decide

/-- C8: when the hardcoded frontend directory does not exist, `os.chdir`
raises before any deletion is attempted, the process terminates abnormally,
and the filesystem is completely unchanged. -/
theorem C8_chdir_failure (raises : String → Bool) (selfPath : String)
    (fs0 : List String) :
    (runScript false raises selfPath fs0).fs = fs0 ∧
    (runScript false raises selfPath fs0).out = [] ∧
    (runScript false raises selfPath fs0).exitedNormally = false := by
  rw [runScript_false_eq, ScriptResult_fs_mk, ScriptResult_out_mk,
    ScriptResult_exit_mk]
  exact ⟨rfl, rfl, rfl⟩

/-- C9 (glob scope): a path containing `/` — a file inside a subdirectory —
never matches the glob, so it survives the run unless it is a fixed-list
entry or the script itself; in particular `public/test-supabase.html` is
removed only through its fixed-list entry. -/
theorem C9_glob_scope (raises : String → Bool) (selfPath : String)
    (fs0 : List String) (f : String) (hf : f ∈ fs0)
    (hsub : f.toList.contains '/' = true) :
    isGlobMatch f = false ∧
    (f ∉ files_to_remove → f ≠ selfPath →
      f ∈ (runCleanup raises selfPath fs0).fs) ∧
    (f = "public/test-supabase.html" → raises f = false → fs0.Nodup →
      f ∉ (runCleanup raises selfPath fs0).fs) := by
  have hm : isGlobMatch f = false := by
    unfold isGlobMatch
    rw [hsub]
    rfl
  refine ⟨hm,
    fun h1 h3 => runCleanup_mem_frame raises selfPath fs0 f hf h1 hm h3, ?_⟩
  intro hpe hr h0
  subst hpe
  exact runCleanup_not_mem_fixed raises selfPath fs0 h0 _ (by decide) hr

/-- Witness for C9: `public/test-supabase.html`, which lives in a
subdirectory, is deleted by the fixed-list loop. -/
theorem C9_glob_scope_witness :
    "public/test-supabase.html" ∉ (runCleanup (fun _ => false) "cleanup.py"
      ["public/test-supabase.html"]).fs :=
  (C9_glob_scope (fun _ => false) "cleanup.py" ["public/test-supabase.html"]
    "public/test-supabase.html" (by decide) (by decide)).2.2 rfl rfl (by decide)

/-- C10: whatever deletions succeeded, were skipped or failed earlier, the
self-removal step is still attempted — the last status line is always the
self-removal success or error report — and the process exits normally even
when the self-removal itself fails (its exception is caught and an error
line printed). -/
theorem C10_self_removal_unconditional (raises : String → Bool)
    (selfPath : String) (fs0 : List String) :
    (runScript true raises selfPath fs0).exitedNormally = true ∧
    ((runScript true raises selfPath fs0).out.getLast?
        = some Line.selfRemoved ∨
      (runScript true raises selfPath fs0).out.getLast?
        = some Line.selfError) ∧
    (raises selfPath = true →
      (runScript true raises selfPath fs0).out.getLast?
        = some Line.selfError) := by
  rw [runScript_true_eq, ScriptResult_out_mk, ScriptResult_exit_mk]
  refine ⟨rfl, ?_, ?_⟩
  · rw [runCleanup_out_getLast]
    rcases selfPhase_line raises selfPath fs0 with h | h
    · exact Or.inl (by rw [h])
    · exact Or.inr (by rw [h])
  · intro hr
    rw [runCleanup_out_getLast, selfPhase_line_of_raises raises selfPath fs0 hr]

/-- Witness for C10: when self-removal raises, the last line is still the
self-removal error report (and the run completed). -/
theorem C10_self_removal_unconditional_witness :
    (runScript true (fun _ => true) "cleanup.py" []).out.getLast?
      = some Line.selfError :=
  (C10_self_removal_unconditional (fun _ => true) "cleanup.py" []).2.2 rfl

end Cleanup
